import Mathlib

/-!
Shallow embedding of the incremental transaction-sync engine of
Personal_Finance_App: the cursor-based change-set fetcher of
`src/server/update_transactions.js`, the duplicate-aware reconciliation
engine of `src/unnamed/part_000`, and the upsert-fallback engine of
`src/server/db/queries/transactions.js`.

Conventions.  Monetary amounts are integer cents, so the SQL tolerance
`ABS(amount - $2) <= 1.00` becomes a difference of at most `100`.  Dates
and cursors are opaque strings; a nullable SQL value is an `Option`.
JavaScript promise batches (`transactions.map(async ...)` joined with
`Promise.all`) are linearised: every mapped task runs to completion even
when a sibling task rejects, and the join rejects exactly when some task
rejected.
-/

/-- An incoming provider transaction record, with exactly the fields that
`createOrUpdateTransactions` destructures. -/
structure Tx where
  account_id : String
  transaction_id : String
  category : String
  transaction_type : String
  name : String
  amount : Int
  iso_currency_code : Option String
  unofficial_currency_code : Option String
  date : String
  pending : Bool
  account_owner : Option String
deriving DecidableEq

/-- One stored row of `transactions_table`.  `id` is the serial primary
key used by the promotion statement `UPDATE ... WHERE id = $9`. -/
structure Row where
  id : Nat
  account_id : Nat
  plaid_transaction_id : String
  category : String
  type : String
  name : String
  amount : Int
  iso_currency_code : Option String
  unofficial_currency_code : Option String
  date : String
  pending : Bool
  account_owner : Option String
  potential_duplicate : Bool
deriving DecidableEq

/-- The relational state visible to the reconciliation engines: the
accounts table (provider account id paired with its local serial id), the
transaction rows in table order, and the next serial id an inserted row
receives. -/
structure Db where
  accounts : List (String × Nat)
  rows : List Row
  nextId : Nat
deriving DecidableEq

/-- `retrieveAccountByPlaidAccountId`: resolve a provider account id to
its local serial id; `none` models the query returning no row, in which
case the caller's destructuring `{ id }` throws. -/
def retrieveAccountByPlaidAccountId (accounts : List (String × Nat))
    (plaidAccountId : String) : Option Nat :=
  (accounts.find? (fun p => decide (p.1 = plaidAccountId))).map Prod.snd

/-- Whether a record's provider account id resolves to a local account. -/
def resolvable (db : Db) (r : Tx) : Bool :=
  (retrieveAccountByPlaidAccountId db.accounts r.account_id).isSome

/-- The row built by the two `INSERT INTO transactions_table` statements:
every column comes from the incoming record except the serial id and the
potential-duplicate flag, which the statement fixes. -/
def newRow (id : Nat) (accountId : Nat) (r : Tx) (dup : Bool) : Row :=
  { id := id
    account_id := accountId
    plaid_transaction_id := r.transaction_id
    category := r.category
    type := r.transaction_type
    name := r.name
    amount := r.amount
    iso_currency_code := r.iso_currency_code
    unofficial_currency_code := r.unofficial_currency_code
    date := r.date
    pending := r.pending
    account_owner := r.account_owner
    potential_duplicate := dup }

/-- The promotion `UPDATE` of the duplicate-aware engine: overwrite the
candidate row with the incoming record's identifier, category, type, name,
amount, currency codes and owner label, and force `pending = FALSE` and
`potential_duplicate = FALSE`.  The serial id, the account column and the
date column are not touched by this statement. -/
def promoteSet (r : Tx) (row : Row) : Row :=
  { row with
    plaid_transaction_id := r.transaction_id
    category := r.category
    type := r.transaction_type
    name := r.name
    amount := r.amount
    iso_currency_code := r.iso_currency_code
    unofficial_currency_code := r.unofficial_currency_code
    pending := false
    account_owner := r.account_owner
    potential_duplicate := false }

/-- The `ON CONFLICT (plaid_transaction_id) DO UPDATE` clause of the
upsert-fallback engine: every column except the serial id and the conflict
key is overwritten from the excluded (incoming) row, whose
potential-duplicate flag is always FALSE. -/
def conflictSet (accountId : Nat) (r : Tx) (row : Row) : Row :=
  { row with
    account_id := accountId
    category := r.category
    type := r.transaction_type
    name := r.name
    amount := r.amount
    iso_currency_code := r.iso_currency_code
    unofficial_currency_code := r.unofficial_currency_code
    date := r.date
    pending := r.pending
    account_owner := r.account_owner
    potential_duplicate := false }

/-- The duplicate-candidate query: rows on the same resolved account whose
amount is within 1.00 of the incoming amount and whose date is equal, in
table order (the SQL statement has no ORDER BY). -/
def duplicateCandidates (db : Db) (accountId : Nat) (r : Tx) : List Row :=
  db.rows.filter (fun row =>
    decide (row.account_id = accountId ∧ (row.amount - r.amount).natAbs ≤ 100 ∧
      row.date = r.date))

/-- What happened to one incoming record.  `unresolvedAccount` is the
rejection raised by destructuring a missing account row: it occurs before
the per-record try/catch and therefore escapes it.  `writeError` is a
storage error raised inside the try/catch, which logs it and moves on. -/
inductive Outcome where
  | inserted
  | flaggedDuplicate
  | promoted
  | upserted
  | unresolvedAccount
  | writeError
deriving DecidableEq

namespace DupAware

/-- One record of `createOrUpdateTransactions` in `src/unnamed/part_000`:
resolve the account (throwing past the try/catch when it is missing), run
the duplicate-candidate query, then promote the first candidate when it is
pending and the incoming record is posted, insert a flagged duplicate in
every other candidate case, or insert a fresh unflagged row when no
candidate exists.  `writeOk` says whether the record's storage statements
succeed; a failure is caught per record and leaves the table unchanged. -/
def processOne (writeOk : Tx → Bool) (db : Db) (r : Tx) : Db × Outcome :=
  match retrieveAccountByPlaidAccountId db.accounts r.account_id with
  | none => (db, .unresolvedAccount)
  | some accountId =>
    if writeOk r then
      match duplicateCandidates db accountId r with
      | [] =>
          ({ db with
              rows := db.rows ++ [newRow db.nextId accountId r false]
              nextId := db.nextId + 1 }, .inserted)
      | c :: _ =>
          if c.pending = true ∧ r.pending = false then
            ({ db with rows := db.rows.map (fun row =>
                if row.id = c.id then promoteSet r row else row) }, .promoted)
          else
            ({ db with
                rows := db.rows ++ [newRow db.nextId accountId r true]
                nextId := db.nextId + 1 }, .flaggedDuplicate)
    else (db, .writeError)

/-- The linearised `transactions.map(async ...)`: every record's task runs
in order, threading the store, and the outcomes are collected. -/
def processBatch (writeOk : Tx → Bool) (db : Db) : List Tx → Db × List Outcome
  | [] => (db, [])
  | r :: rest =>
    let step := processOne writeOk db r
    let tail := processBatch writeOk step.1 rest
    (tail.1, step.2 :: tail.2)

/-- `createOrUpdateTransactions` of `src/unnamed/part_000`: run every
record's task, then `await Promise.all`, which rejects exactly when some
task rejected — and the only rejection that escapes the per-record
try/catch is the unresolved-account destructuring failure. -/
def createOrUpdateTransactions (writeOk : Tx → Bool) (db : Db)
    (rs : List Tx) : Db × Except Unit Unit :=
  let run := processBatch writeOk db rs
  (run.1, if Outcome.unresolvedAccount ∈ run.2 then .error () else .ok ())

end DupAware

namespace UpsertFallback

/-- One record of `createOrUpdateTransactions` in
`src/server/db/queries/transactions.js`: resolve the account (the same
unguarded destructuring), then run
`INSERT ... ON CONFLICT (plaid_transaction_id) DO UPDATE`, which
overwrites every mutable column of the existing row or inserts a fresh row
with `potential_duplicate = FALSE`. -/
def upsertOne (writeOk : Tx → Bool) (db : Db) (r : Tx) : Db × Outcome :=
  match retrieveAccountByPlaidAccountId db.accounts r.account_id with
  | none => (db, .unresolvedAccount)
  | some accountId =>
    if writeOk r then
      if db.rows.any (fun row => decide (row.plaid_transaction_id = r.transaction_id)) then
        ({ db with rows := db.rows.map (fun row =>
            if row.plaid_transaction_id = r.transaction_id then conflictSet accountId r row
            else row) }, .upserted)
      else
        ({ db with
            rows := db.rows ++ [newRow db.nextId accountId r false]
            nextId := db.nextId + 1 }, .upserted)
    else (db, .writeError)

/-- The linearised promise batch of the upsert-fallback engine. -/
def processBatch (writeOk : Tx → Bool) (db : Db) : List Tx → Db × List Outcome
  | [] => (db, [])
  | r :: rest =>
    let step := upsertOne writeOk db r
    let tail := processBatch writeOk step.1 rest
    (tail.1, step.2 :: tail.2)

/-- `createOrUpdateTransactions` of
`src/server/db/queries/transactions.js`: run every record's upsert, then
`await Promise.all`. -/
def createOrUpdateTransactions (writeOk : Tx → Bool) (db : Db)
    (rs : List Tx) : Db × Except Unit Unit :=
  let run := processBatch writeOk db rs
  (run.1, if Outcome.unresolvedAccount ∈ run.2 then .error () else .ok ())

end UpsertFallback

/-- One page of the remote `transactionsSync` response. -/
structure Page where
  added : List Tx
  modified : List Tx
  removed : List String
  has_more : Bool
  next_cursor : String
deriving DecidableEq

/-- A page request either yields a page or throws (network failure). -/
abbrev PageResp := Except Unit Page

/-- The value returned by `fetchTransactionUpdates`, together with the
trace of the cursor argument passed to each `transactionsSync` call
(`requests`), recorded so the pagination protocol can be stated. -/
structure FetchOut where
  added : List Tx
  modified : List Tx
  removed : List String
  cursor : Option String
  requests : List (Option String)
deriving DecidableEq

/-- The `cursor || null` argument of the `transactionsSync` call: a
missing cursor is sent as null, and so is an empty-string cursor, because
the empty string is falsy in JavaScript. -/
def sentCursor : Option String → Option String
  | none => none
  | some s => if s = "" then none else some s

/-- The while-hasMore loop of `fetchTransactionUpdates`, consuming the
script of page responses in order.  A failing response is the catch
block: the accumulated lists are kept and the cursor is reset to the
last-known cursor.  An exhausted script — never reached under the
theorems' hypotheses — ends the loop as if the feed reported no more
data. -/
def fetchLoop (lastCursor : Option String) :
    Option String → List Tx → List Tx → List String → List (Option String) →
    List PageResp → FetchOut
  | cursor, added, modified, removed, reqs, [] =>
      ⟨added, modified, removed, cursor, reqs⟩
  | cursor, added, modified, removed, reqs, resp :: rest =>
    match resp with
    | .error _ => ⟨added, modified, removed, lastCursor, reqs ++ [sentCursor cursor]⟩
    | .ok p =>
      if p.has_more then
        fetchLoop lastCursor (some p.next_cursor) (added ++ p.added)
          (modified ++ p.modified) (removed ++ p.removed)
          (reqs ++ [sentCursor cursor]) rest
      else
        ⟨added ++ p.added, modified ++ p.modified, removed ++ p.removed,
          some p.next_cursor, reqs ++ [sentCursor cursor]⟩

/-- One row of the items table: provider item id, access token and the
persisted transactions cursor, which is null before the first sync. -/
structure Item where
  plaid_item_id : String
  plaid_access_token : String
  transactions_cursor : Option String
deriving DecidableEq

/-- The persistent store one sync cycle touches: the items table (the
cursor store) and the transaction store. -/
structure Store where
  items : List Item
  db : Db
deriving DecidableEq

/-- `retrieveItemByPlaidItemId`. -/
def retrieveItemByPlaidItemId (store : Store) (plaidItemId : String) : Option Item :=
  store.items.find? (fun it => decide (it.plaid_item_id = plaidItemId))

/-- `fetchTransactionUpdates`: look the item up — throwing when it is
absent — and run the pagination loop starting from its persisted cursor.
The script parameter stands for the remote feed's successive responses. -/
def fetchTransactionUpdates (script : List PageResp) (store : Store)
    (plaidItemId : String) : Except Unit FetchOut :=
  match retrieveItemByPlaidItemId store plaidItemId with
  | none => .error ()
  | some item =>
      .ok (fetchLoop item.transactions_cursor item.transactions_cursor [] [] [] [] script)

/-- `deleteTransactions`: one DELETE per removed provider transaction id;
deleting an absent id is a no-op. -/
def deleteTransactions (db : Db) (removed : List String) : Db :=
  { db with rows := db.rows.filter (fun row =>
      decide (¬ ∃ t ∈ removed, t = row.plaid_transaction_id)) }

/-- Modelled from the spec: `createAccounts` (the account-store upsert,
whose source file is not part of the repository snapshot) merges the
provider's account list — provider account id with the local id the store
assigns it — into the accounts table. -/
def createAccounts (db : Db) (accs : List (String × Nat)) : Db :=
  { db with accounts := accs.foldl (fun acc p =>
      if acc.any (fun q => decide (q.1 = p.1)) then
        acc.map (fun q => if q.1 = p.1 then p else q)
      else acc ++ [p]) db.accounts }

/-- The storage steps of one sync cycle, in the order `updateTransactions`
awaits them. -/
inductive Event where
  | createAccountsEvt
  | reconcileEvt
  | deleteEvt
  | setCursorEvt
deriving DecidableEq

/-- `updateItemTransactionsCursor`: persist the cursor for an item. -/
def updateItemTransactionsCursor (store : Store) (plaidItemId : String)
    (cursor : Option String) : Store :=
  { store with items := store.items.map (fun it =>
      if it.plaid_item_id = plaidItemId then { it with transactions_cursor := cursor }
      else it) }

/-- The counts returned by a successful `updateTransactions`. -/
structure SyncCounts where
  addedCount : Nat
  modifiedCount : Nat
  removedCount : Nat
deriving DecidableEq

/-- `updateTransactions`: fetch the change-set, upsert the provider's
account list (the `accountsGet` response, passed as a parameter), run
added ++ modified through the duplicate-aware engine, delete the removed
ids, and persist the cursor last.  A rejection from the fetch or from the
reconciliation batch aborts the remaining awaits, while the store
mutations already performed stay.  The event list records which awaits
completed, in order. -/
def updateTransactions (script : List PageResp) (provAccounts : List (String × Nat))
    (writeOk : Tx → Bool) (store : Store) (plaidItemId : String) :
    Store × List Event × Except Unit SyncCounts :=
  match fetchTransactionUpdates script store plaidItemId with
  | .error e => (store, [], .error e)
  | .ok out =>
    let store1 : Store := { store with db := createAccounts store.db provAccounts }
    let run := DupAware.createOrUpdateTransactions writeOk store1.db (out.added ++ out.modified)
    let store2 : Store := { store1 with db := run.1 }
    match run.2 with
    | .error e => (store2, [.createAccountsEvt, .reconcileEvt], .error e)
    | .ok _ =>
      let store3 : Store := { store2 with db := deleteTransactions store2.db out.removed }
      let store4 := updateItemTransactionsCursor store3 plaidItemId out.cursor
      (store4, [.createAccountsEvt, .reconcileEvt, .deleteEvt, .setCursorEvt],
        .ok ⟨out.added.length, out.modified.length, out.removed.length⟩)

/-- The top-level driver of `update_transactions.js`: iterate the item ids
inside one try/catch and await `updateTransactions` for each.  The first
rejection is caught outside the loop, so the remaining items are not
attempted.  Returns the final store and the list of item ids for which a
sync was attempted; the id list is the one the items-table query yields. -/
def runAllItems (script : String → List PageResp) (provAccounts : List (String × Nat))
    (writeOk : Tx → Bool) (store : Store) : List String → Store × List String
  | [] => (store, [])
  | pid :: rest =>
    let r := updateTransactions (script pid) provAccounts writeOk store pid
    match r.2.2 with
    | .error _ => (r.1, [pid])
    | .ok _ =>
      let s := runAllItems script provAccounts writeOk r.1 rest
      (s.1, pid :: s.2)

/-- Modelled from the amended pagination claim: the cursor argument each
successive `transactionsSync` call receives — the stored cursor through
`sentCursor` first, then each previous page's `next_cursor` through
`sentCursor`, for as long as pages report more data. -/
def requestCursorsSpec : Option String → List PageResp → List (Option String)
  | _, [] => []
  | c, .error _ :: _ => [sentCursor c]
  | c, .ok p :: rest =>
      sentCursor c :: (if p.has_more then requestCursorsSpec (some p.next_cursor) rest else [])

/-- Concrete run of the C2 promotion: a pending row of 10.00 on
2024-01-05 and an incoming posted record of 10.50 on the same date and
account. -/
def c2Row : Row :=
  ⟨3, 1, "pend1", "FOOD", "place", "Coffee", 1000, some "USD", none,
    "2024-01-05", true, none, false⟩

/-- The incoming posted record of the C2 witness. -/
def c2Tx : Tx :=
  ⟨"acc1", "post1", "FOOD", "place", "Coffee", 1050, some "USD", none,
    "2024-01-05", false, none⟩

/-- The store of the C2 witness. -/
def c2Db : Db := ⟨[("acc1", 1)], [c2Row], 5⟩

/-- The existing posted row of the C3 witness: 10.00 on 2024-01-05. -/
def c3Row : Row :=
  ⟨7, 1, "post0", "FOOD", "place", "Coffee", 1000, some "USD", none,
    "2024-01-05", false, none, false⟩

/-- The incoming posted record of the C3 witness: 10.40 on the same date
and account. -/
def c3Tx : Tx :=
  ⟨"acc1", "post1", "FOOD", "place", "Coffee", 1040, some "USD", none,
    "2024-01-05", false, none⟩

/-- The store of the C3 witness. -/
def c3Db : Db := ⟨[("acc1", 1)], [c3Row], 9⟩

/-- The first (posted) candidate of the C10 witness. -/
def c10RowA : Row :=
  ⟨1, 1, "posted0", "FOOD", "place", "Coffee", 990, some "USD", none,
    "2024-01-05", false, none, false⟩

/-- The later (pending) candidate of the C10 witness. -/
def c10RowB : Row :=
  ⟨2, 1, "pend0", "FOOD", "place", "Coffee", 1010, some "USD", none,
    "2024-01-05", true, none, false⟩

/-- The incoming posted record of the C10 witness. -/
def c10Tx : Tx :=
  ⟨"acc1", "post9", "FOOD", "place", "Coffee", 1000, some "USD", none,
    "2024-01-05", false, none⟩

/-- The store of the C10 witness: the posted candidate sits before the
pending one in table order. -/
def c10Db : Db := ⟨[("acc1", 1)], [c10RowA, c10RowB], 3⟩

/-- The record of the C6 counterexample whose account is unknown. -/
def c6TxBad : Tx :=
  ⟨"zzz", "t1", "FOOD", "place", "Bad", 500, none, none, "2024-01-05", false, none⟩

/-- The sibling record of the C6 counterexample, on a known account. -/
def c6TxGood : Tx :=
  ⟨"acc1", "t2", "FOOD", "place", "Good", 700, none, none, "2024-01-06", false, none⟩

/-- The store of the C6 counterexample. -/
def c6Db : Db := ⟨[("acc1", 1)], [], 0⟩

/-- The three added records of the C9 witness scenario. -/
def c9TxA : Tx := ⟨"acc1", "A", "FOOD", "place", "A", 100, none, none, "2024-01-01", false, none⟩

/-- Second record of the C9 witness. -/
def c9TxB : Tx := ⟨"acc1", "B", "FOOD", "place", "B", 200, none, none, "2024-01-02", false, none⟩

/-- Third record of the C9 witness, arriving on the second page. -/
def c9TxC : Tx := ⟨"acc1", "C", "FOOD", "place", "C", 300, none, none, "2024-01-03", false, none⟩

/-- First page of the C9 witness: two added records, more data available. -/
def c9Page1 : Page := ⟨[c9TxA, c9TxB], [], [], true, "c1"⟩

/-- Second and final page of the C9 witness. -/
def c9Page2 : Page := ⟨[c9TxC], [], [], false, "c2"⟩

/-- The store of the C9 witness: a never-synced item. -/
def c9Store : Store := ⟨[⟨"it1", "tok1", none⟩], ⟨[("acc1", 1)], [], 0⟩⟩

/-- The record accumulated on the successful first page of the C1
witness. -/
def c1Tx : Tx := ⟨"acc1", "t1", "FOOD", "place", "One", 100, none, none, "2024-02-01", false, none⟩

/-- The successful first page of the C1 witness, advertising more data. -/
def c1Page : Page := ⟨[c1Tx], [], [], true, "c1"⟩

/-- The store of the C1 witness: an item whose last-known cursor is c0. -/
def c1Store : Store := ⟨[⟨"it1", "tok1", some "c0"⟩], ⟨[("acc1", 1)], [], 0⟩⟩

/-- The store of the C8 theorems: a never-synced item. -/
def c8Store : Store := ⟨[⟨"it1", "tok1", none⟩], ⟨[], [], 0⟩⟩

/-- The script of the C8 counterexample: the first page reports more data
with `next_cursor` equal to the empty string. -/
def c8Script : List PageResp :=
  [Except.ok ⟨[], [], [], true, ""⟩, Except.ok ⟨[], [], [], false, "c2"⟩]

/-- The record of the C4 run whose storage write fails. -/
def c4Tx : Tx := ⟨"acc1", "t1", "FOOD", "place", "Fail", 500, none, none, "2024-03-01", false, none⟩

/-- The store of the C4 run: cursor c0 before the cycle. -/
def c4Store : Store := ⟨[⟨"it1", "tok1", some "c0"⟩], ⟨[("acc1", 1)], [], 0⟩⟩

/-- The single, fully successful page of the C4 run. -/
def c4Script : List PageResp := [Except.ok ⟨[c4Tx], [], [], false, "c1"⟩]

/-- The storage oracle of the C4 run: the write for t1 fails. -/
def c4WriteOk : Tx → Bool := fun t => decide (t.transaction_id ≠ "t1")

/-- The record of the C5 run that makes the first item's cycle reject:
its provider account is unknown. -/
def c5TxBad : Tx := ⟨"zzz", "t1", "FOOD", "place", "Bad", 100, none, none, "2024-01-01", false, none⟩

/-- The store of the C5 run: two tracked items A and B. -/
def c5Store : Store := ⟨[⟨"A", "tA", none⟩, ⟨"B", "tB", none⟩], ⟨[("acc1", 1)], [], 0⟩⟩

/-- The per-item page script of the C5 run. -/
def c5Script : String → List PageResp :=
  fun _ => [Except.ok ⟨[c5TxBad], [], [], false, "c1"⟩]

/-- The state part of one upsert-fallback record. -/
def upsertDb (writeOk : Tx → Bool) (db : Db) (r : Tx) : Db :=
  (UpsertFallback.upsertOne writeOk db r).1

/-- The state part of an upsert-fallback batch, as a fold. -/
def applyAll (writeOk : Tx → Bool) (db : Db) (rs : List Tx) : Db :=
  rs.foldl (upsertDb writeOk) db

/-- Whether some row of the table carries the given conflict key. -/
def hasTid (db : Db) (p : String) : Bool :=
  db.rows.any (fun row => decide (row.plaid_transaction_id = p))

/-- A record that will overwrite the row keyed `p`: its account resolves,
its write succeeds, and its conflict key is `p`. -/
def touches (writeOk : Tx → Bool) (accounts : List (String × Nat)) (p : String)
    (r : Tx) : Prop :=
  (retrieveAccountByPlaidAccountId accounts r.account_id).isSome = true
  ∧ writeOk r = true ∧ r.transaction_id = p

/-- Every row keyed like `r` already carries exactly the column values the
conflict clause would write for `r`. -/
def settled (a : Nat) (r : Tx) (db : Db) : Prop :=
  ∀ row ∈ db.rows, row.plaid_transaction_id = r.transaction_id →
    conflictSet a r row = row

/-- Rows that agree, except that two rows keyed `p` may differ in the
columns the conflict clause overwrites (their serial id and key agree). -/
def rowShape (p : String) (x y : Row) : Prop :=
  x = y ∨ (x.plaid_transaction_id = p ∧ y.plaid_transaction_id = p ∧ x.id = y.id)

/-- Tables that agree except in the overwritable columns of rows keyed
`p`. -/
def eqExceptAt (p : String) (d1 d2 : Db) : Prop :=
  d1.accounts = d2.accounts ∧ d1.nextId = d2.nextId ∧
    List.Forall₂ (rowShape p) d1.rows d2.rows

/-- C2: in duplicate-aware mode, when the first duplicate candidate is
pending and the incoming record is posted, the engine updates the
candidate row in place with the incoming identifier, category, type,
name, amount, currency fields and owner label, sets pending and
potential_duplicate to false, and inserts no second row. -/
theorem c2_pending_promotion (writeOk : Tx → Bool) (db : Db) (r : Tx)
    (accountId : Nat) (c : Row) (cs : List Row)
    (hacct : retrieveAccountByPlaidAccountId db.accounts r.account_id = some accountId)
    (hw : writeOk r = true)
    (hc : duplicateCandidates db accountId r = c :: cs)
    (hcp : c.pending = true) (hrp : r.pending = false) :
    DupAware.processOne writeOk db r =
      ({ db with rows := db.rows.map (fun row =>
          if row.id = c.id then
            { row with
              plaid_transaction_id := r.transaction_id
              category := r.category
              type := r.transaction_type
              name := r.name
              amount := r.amount
              iso_currency_code := r.iso_currency_code
              unofficial_currency_code := r.unofficial_currency_code
              pending := false
              account_owner := r.account_owner
              potential_duplicate := false }
          else row) }, Outcome.promoted)
    ∧ (DupAware.processOne writeOk db r).1.rows.length = db.rows.length := by
  have h1 : DupAware.processOne writeOk db r =
      ({ db with rows := db.rows.map (fun row =>
          if row.id = c.id then promoteSet r row else row) }, Outcome.promoted) := by
    simp [DupAware.processOne, hacct, hw, hc, hcp, hrp]
  refine ⟨?_, ?_⟩
  · rw [h1]; simp [promoteSet]
  · rw [h1]; simp

/-- Witness for C2 at the spec's own example amounts. -/
theorem c2_pending_promotion_witness :
    retrieveAccountByPlaidAccountId c2Db.accounts c2Tx.account_id = some 1
    ∧ duplicateCandidates c2Db 1 c2Tx = [c2Row]
    ∧ c2Row.pending = true ∧ c2Tx.pending = false
    ∧ (DupAware.processOne (fun _ => true) c2Db c2Tx).1.rows.length = c2Db.rows.length
    ∧ (DupAware.processOne (fun _ => true) c2Db c2Tx).2 = Outcome.promoted :=
  ⟨by decide, by decide, by decide, by decide,
    (c2_pending_promotion (fun _ => true) c2Db c2Tx 1 c2Row [] (by decide) rfl
      (by decide) (by decide) (by decide)).2,
    by decide⟩

/-- C3: in duplicate-aware mode, a candidate that cannot be promoted
(already posted, or the incoming record is itself pending) makes the
engine insert a new row flagged `potential_duplicate = true` while the
existing rows, the candidate included, stay untouched; and with no
candidate at all a new row is inserted with `potential_duplicate =
false`. -/
theorem c3_duplicate_flag_and_fresh_insert (writeOk : Tx → Bool) (db : Db) (r : Tx)
    (accountId : Nat)
    (hacct : retrieveAccountByPlaidAccountId db.accounts r.account_id = some accountId)
    (hw : writeOk r = true) :
    (∀ c cs, duplicateCandidates db accountId r = c :: cs →
      ¬(c.pending = true ∧ r.pending = false) →
      DupAware.processOne writeOk db r =
        ({ db with
            rows := db.rows ++ [newRow db.nextId accountId r true]
            nextId := db.nextId + 1 }, Outcome.flaggedDuplicate))
    ∧ (duplicateCandidates db accountId r = [] →
      DupAware.processOne writeOk db r =
        ({ db with
            rows := db.rows ++ [newRow db.nextId accountId r false]
            nextId := db.nextId + 1 }, Outcome.inserted)) := by
  constructor
  · intro c cs hc hnp
    simp [DupAware.processOne, hacct, hw, hc, hnp]
  · intro hc
    simp [DupAware.processOne, hacct, hw, hc]

/-- Witness for C3 at the spec's genuine-duplicate example: the engine
inserts a flagged row and leaves the posted original untouched. -/
theorem c3_duplicate_flag_and_fresh_insert_witness :
    retrieveAccountByPlaidAccountId c3Db.accounts c3Tx.account_id = some 1
    ∧ duplicateCandidates c3Db 1 c3Tx = [c3Row]
    ∧ DupAware.processOne (fun _ => true) c3Db c3Tx =
        ({ c3Db with
            rows := c3Db.rows ++ [newRow c3Db.nextId 1 c3Tx true]
            nextId := c3Db.nextId + 1 }, Outcome.flaggedDuplicate) :=
  ⟨by decide, by decide,
    (c3_duplicate_flag_and_fresh_insert (fun _ => true) c3Db c3Tx 1 (by decide) rfl).1
      c3Row [] (by decide) (by decide)⟩

/-- C10 (implicit): with several duplicate candidates the decision reads
only the first returned row's pending flag; when that first candidate is
posted and a later candidate is pending, an incoming posted record is
inserted as a potential duplicate and every existing row — the pending
candidate included — stays present untouched, so the pending candidate is
never promoted. -/
theorem c10_first_candidate_decides (writeOk : Tx → Bool) (db : Db) (r : Tx)
    (accountId : Nat) (cHead cLater : Row) (cs : List Row)
    (hacct : retrieveAccountByPlaidAccountId db.accounts r.account_id = some accountId)
    (hw : writeOk r = true)
    (hc : duplicateCandidates db accountId r = cHead :: cs)
    (hh : cHead.pending = false) (hrp : r.pending = false)
    (hmem : cLater ∈ cs) (hlp : cLater.pending = true) :
    DupAware.processOne writeOk db r =
      ({ db with
          rows := db.rows ++ [newRow db.nextId accountId r true]
          nextId := db.nextId + 1 }, Outcome.flaggedDuplicate)
    ∧ cLater ∈ (DupAware.processOne writeOk db r).1.rows := by
  have h1 : DupAware.processOne writeOk db r =
      ({ db with
          rows := db.rows ++ [newRow db.nextId accountId r true]
          nextId := db.nextId + 1 }, Outcome.flaggedDuplicate) := by
    simp [DupAware.processOne, hacct, hw, hc, hh]
  refine ⟨h1, ?_⟩
  rw [h1]
  have hmem' : cLater ∈ duplicateCandidates db accountId r := by
    rw [hc]; exact List.mem_cons_of_mem _ hmem
  have : cLater ∈ db.rows := List.mem_of_mem_filter hmem'
  exact List.mem_append_left _ this

/-- Witness for C10: the pending candidate in second position is never
promoted; a flagged duplicate row is inserted instead. -/
theorem c10_first_candidate_decides_witness :
    duplicateCandidates c10Db 1 c10Tx = [c10RowA, c10RowB]
    ∧ c10RowA.pending = false ∧ c10RowB.pending = true
    ∧ (DupAware.processOne (fun _ => true) c10Db c10Tx =
        ({ c10Db with
            rows := c10Db.rows ++ [newRow c10Db.nextId 1 c10Tx true]
            nextId := c10Db.nextId + 1 }, Outcome.flaggedDuplicate)
      ∧ c10RowB ∈ (DupAware.processOne (fun _ => true) c10Db c10Tx).1.rows) :=
  ⟨by decide, by decide, by decide,
    c10_first_candidate_decides (fun _ => true) c10Db c10Tx 1 c10RowA c10RowB [c10RowB]
      (by decide) rfl (by decide) (by decide) (by decide) (by decide) (by decide)⟩

lemma processOne_accounts (writeOk : Tx → Bool) (db : Db) (r : Tx) :
    (DupAware.processOne writeOk db r).1.accounts = db.accounts := by
  unfold DupAware.processOne
  split
  · rfl
  · split
    · split
      · rfl
      · split
        · rfl
        · rfl
    · rfl

lemma processOne_unresolved (writeOk : Tx → Bool) (db : Db) (r : Tx)
    (h : resolvable db r = false) :
    DupAware.processOne writeOk db r = (db, Outcome.unresolvedAccount) := by
  unfold DupAware.processOne
  rcases hr : retrieveAccountByPlaidAccountId db.accounts r.account_id with _ | a
  · rfl
  · rw [resolvable, hr] at h
    simp at h

lemma processOne_resolved_ne (writeOk : Tx → Bool) (db : Db) (r : Tx)
    (h : resolvable db r = true) :
    (DupAware.processOne writeOk db r).2 ≠ Outcome.unresolvedAccount := by
  rw [resolvable] at h
  obtain ⟨a, hr⟩ := Option.isSome_iff_exists.1 h
  unfold DupAware.processOne
  rw [hr]
  dsimp only
  split
  · split
    · simp
    · split
      · simp
      · simp
  · simp

lemma resolvable_congr (db1 db2 : Db) (r : Tx) (h : db1.accounts = db2.accounts) :
    resolvable db1 r = resolvable db2 r := by
  rw [resolvable, resolvable, h]

lemma processBatch_filter (writeOk : Tx → Bool) :
    ∀ (rs : List Tx) (db : Db),
      (DupAware.processBatch writeOk db rs).1
        = (DupAware.processBatch writeOk db (rs.filter (resolvable db))).1
      ∧ (Outcome.unresolvedAccount ∈ (DupAware.processBatch writeOk db rs).2
          ↔ ∃ r ∈ rs, resolvable db r = false) := by
  intro rs
  induction rs with
  | nil => intro db; simp [DupAware.processBatch]
  | cons r rest ih =>
    intro db
    cases hres : resolvable db r with
    | false =>
      have hstep := processOne_unresolved writeOk db r hres
      have hfil : (r :: rest).filter (resolvable db) = rest.filter (resolvable db) := by
        simp [List.filter, hres]
      constructor
      · rw [hfil]
        show (DupAware.processBatch writeOk (DupAware.processOne writeOk db r).1 rest).1 = _
        rw [hstep]
        exact (ih db).1
      · show Outcome.unresolvedAccount ∈
          (DupAware.processOne writeOk db r).2 ::
            (DupAware.processBatch writeOk (DupAware.processOne writeOk db r).1 rest).2 ↔ _
        rw [hstep]
        constructor
        · intro _
          exact ⟨r, List.mem_cons_self r rest, hres⟩
        · intro _
          exact List.mem_cons_self _ _
    | true =>
      have hacc := processOne_accounts writeOk db r
      have hne := processOne_resolved_ne writeOk db r hres
      have hfil : (r :: rest).filter (resolvable db)
          = r :: rest.filter (resolvable db) := by
        simp [List.filter, hres]
      have hcongr : rest.filter (resolvable db)
          = rest.filter (resolvable (DupAware.processOne writeOk db r).1) := by
        apply List.filter_congr
        intro x _
        exact resolvable_congr db (DupAware.processOne writeOk db r).1 x hacc.symm
      constructor
      · rw [hfil]
        show (DupAware.processBatch writeOk (DupAware.processOne writeOk db r).1 rest).1
          = (DupAware.processBatch writeOk (DupAware.processOne writeOk db r).1
              (rest.filter (resolvable db))).1
        rw [hcongr]
        exact (ih (DupAware.processOne writeOk db r).1).1
      · show Outcome.unresolvedAccount ∈
          (DupAware.processOne writeOk db r).2 ::
            (DupAware.processBatch writeOk (DupAware.processOne writeOk db r).1 rest).2 ↔ _
        rw [List.mem_cons]
        have ihm := (ih (DupAware.processOne writeOk db r).1).2
        constructor
        · intro hmem
          rcases hmem with h1 | h2
          · exact absurd h1.symm hne
          · rcases ihm.1 h2 with ⟨x, hx, hxr⟩
            refine ⟨x, List.mem_cons_of_mem _ hx, ?_⟩
            rw [resolvable_congr db (DupAware.processOne writeOk db r).1 x hacc.symm]
            exact hxr
        · rintro ⟨x, hx, hxr⟩
          rcases List.mem_cons.1 hx with rfl | hx'
          · rw [hres] at hxr; cases hxr
          · refine Or.inr (ihm.2 ⟨x, hx', ?_⟩)
            rw [← resolvable_congr db (DupAware.processOne writeOk db r).1 x hacc.symm]
            exact hxr

/-- C6 amended: a record whose provider account id resolves to no local
account contributes no row, and every sibling record of the batch is
still processed — the store ends exactly as if the unresolvable records
had been absent — but the failure is not caught by the per-record
handler: the batch call itself rejects exactly when such a record is
present. -/
theorem c6_unresolved_account_siblings_processed_batch_rejects
    (writeOk : Tx → Bool) (db : Db) (rs : List Tx) :
    (DupAware.createOrUpdateTransactions writeOk db rs).1
      = (DupAware.createOrUpdateTransactions writeOk db (rs.filter (resolvable db))).1
    ∧ ((DupAware.createOrUpdateTransactions writeOk db rs).2 = .error ()
        ↔ ∃ r ∈ rs, resolvable db r = false) := by
  have h := processBatch_filter writeOk rs db
  constructor
  · exact h.1
  · show (if Outcome.unresolvedAccount ∈ (DupAware.processBatch writeOk db rs).2
      then (Except.error () : Except Unit Unit) else .ok ()) = .error () ↔ _
    rw [← h.2]
    by_cases hmem : Outcome.unresolvedAccount ∈ (DupAware.processBatch writeOk db rs).2
    · simp [hmem]
    · simp [hmem]

/-- C6 counterexample: with an unresolvable record in the batch, the
sibling is still inserted, but the batch call rejects instead of skipping
the record with a warning — so the record is fatal to the batch call,
contradicting the claim. -/
theorem c6_counterexample_unresolved_account_rejects_batch :
    (DupAware.createOrUpdateTransactions (fun _ => true) c6Db [c6TxBad, c6TxGood]).2
      = Except.error ()
    ∧ (DupAware.createOrUpdateTransactions (fun _ => true) c6Db [c6TxBad, c6TxGood]).1.rows
      = [newRow 0 1 c6TxGood false] :=
  ⟨rfl, by decide⟩

lemma fetchLoop_error_spec :
    ∀ (pref : List Page) (rest : List PageResp) (lc cursor : Option String)
      (a m : List Tx) (rm : List String) (rq : List (Option String)),
      (∀ p ∈ pref, p.has_more = true) →
      (fetchLoop lc cursor a m rm rq (pref.map Except.ok ++ Except.error () :: rest)).cursor = lc
      ∧ (fetchLoop lc cursor a m rm rq (pref.map Except.ok ++ Except.error () :: rest)).added
          = a ++ pref.flatMap Page.added
      ∧ (fetchLoop lc cursor a m rm rq (pref.map Except.ok ++ Except.error () :: rest)).modified
          = m ++ pref.flatMap Page.modified
      ∧ (fetchLoop lc cursor a m rm rq (pref.map Except.ok ++ Except.error () :: rest)).removed
          = rm ++ pref.flatMap Page.removed := by
  intro pref
  induction pref with
  | nil =>
    intro rest lc cursor a m rm rq _
    simp [fetchLoop]
  | cons p ps ih =>
    intro rest lc cursor a m rm rq hmore
    have hp : p.has_more = true := hmore p (List.mem_cons_self _ _)
    have hstep : fetchLoop lc cursor a m rm rq
        ((p :: ps).map Except.ok ++ Except.error () :: rest)
        = fetchLoop lc (some p.next_cursor) (a ++ p.added) (m ++ p.modified)
            (rm ++ p.removed) (rq ++ [sentCursor cursor])
            (ps.map Except.ok ++ Except.error () :: rest) := by
      simp [fetchLoop, hp]
    obtain ⟨h1, h2, h3, h4⟩ := ih rest lc (some p.next_cursor) (a ++ p.added)
      (m ++ p.modified) (rm ++ p.removed) (rq ++ [sentCursor cursor])
      (fun q hq => hmore q (List.mem_cons_of_mem _ hq))
    rw [hstep]
    refine ⟨h1, ?_, ?_, ?_⟩
    · rw [h2, List.flatMap_cons, List.append_assoc]
    · rw [h3, List.flatMap_cons, List.append_assoc]
    · rw [h4, List.flatMap_cons, List.append_assoc]

lemma fetchLoop_ok_spec :
    ∀ (init : List Page) (lastPage : Page) (lc cursor : Option String)
      (a m : List Tx) (rm : List String) (rq : List (Option String)),
      (∀ p ∈ init, p.has_more = true) → lastPage.has_more = false →
      (fetchLoop lc cursor a m rm rq (init.map Except.ok ++ [Except.ok lastPage])).cursor
          = some lastPage.next_cursor
      ∧ (fetchLoop lc cursor a m rm rq (init.map Except.ok ++ [Except.ok lastPage])).added
          = a ++ (init ++ [lastPage]).flatMap Page.added
      ∧ (fetchLoop lc cursor a m rm rq (init.map Except.ok ++ [Except.ok lastPage])).modified
          = m ++ (init ++ [lastPage]).flatMap Page.modified
      ∧ (fetchLoop lc cursor a m rm rq (init.map Except.ok ++ [Except.ok lastPage])).removed
          = rm ++ (init ++ [lastPage]).flatMap Page.removed := by
  intro init
  induction init with
  | nil =>
    intro lastPage lc cursor a m rm rq _ hlast
    simp [fetchLoop, hlast]
  | cons p ps ih =>
    intro lastPage lc cursor a m rm rq hmore hlast
    have hp : p.has_more = true := hmore p (List.mem_cons_self _ _)
    have hstep : fetchLoop lc cursor a m rm rq
        ((p :: ps).map Except.ok ++ [Except.ok lastPage])
        = fetchLoop lc (some p.next_cursor) (a ++ p.added) (m ++ p.modified)
            (rm ++ p.removed) (rq ++ [sentCursor cursor])
            (ps.map Except.ok ++ [Except.ok lastPage]) := by
      simp [fetchLoop, hp]
    obtain ⟨h1, h2, h3, h4⟩ := ih lastPage lc (some p.next_cursor) (a ++ p.added)
      (m ++ p.modified) (rm ++ p.removed) (rq ++ [sentCursor cursor])
      (fun q hq => hmore q (List.mem_cons_of_mem _ hq)) hlast
    rw [hstep]
    refine ⟨h1, ?_, ?_, ?_⟩
    · rw [h2, List.cons_append, List.flatMap_cons, List.append_assoc]
    · rw [h3, List.cons_append, List.flatMap_cons, List.append_assoc]
    · rw [h4, List.cons_append, List.flatMap_cons, List.append_assoc]

lemma fetchLoop_requests :
    ∀ (script : List PageResp) (lc cursor : Option String) (a m : List Tx)
      (rm : List String) (rq : List (Option String)),
      (fetchLoop lc cursor a m rm rq script).requests
        = rq ++ requestCursorsSpec cursor script := by
  intro script
  induction script with
  | nil =>
    intro lc cursor a m rm rq
    simp [fetchLoop, requestCursorsSpec]
  | cons resp rest ih =>
    intro lc cursor a m rm rq
    cases resp with
    | error e =>
      simp [fetchLoop, requestCursorsSpec]
    | ok p =>
      cases hp : p.has_more with
      | true =>
        have hstep : fetchLoop lc cursor a m rm rq (Except.ok p :: rest)
            = fetchLoop lc (some p.next_cursor) (a ++ p.added) (m ++ p.modified)
                (rm ++ p.removed) (rq ++ [sentCursor cursor]) rest := by
          simp [fetchLoop, hp]
        rw [hstep, ih]
        simp [requestCursorsSpec, hp]
      | false =>
        simp [fetchLoop, requestCursorsSpec, hp]

/-- C9: over a fetch whose pages all succeed, the added list returned by
`fetchTransactionUpdates` is the concatenation of the pages' added lists
in page-arrival order, and likewise for modified and removed; the final
cursor is the last page's `next_cursor`. -/
theorem c9_page_order_concatenation (store : Store) (pid : String) (item : Item)
    (init : List Page) (lastPage : Page)
    (hitem : retrieveItemByPlaidItemId store pid = some item)
    (hmore : ∀ p ∈ init, p.has_more = true)
    (hlast : lastPage.has_more = false) :
    ∃ out, fetchTransactionUpdates (init.map Except.ok ++ [Except.ok lastPage]) store pid
        = .ok out
      ∧ out.added = (init ++ [lastPage]).flatMap Page.added
      ∧ out.modified = (init ++ [lastPage]).flatMap Page.modified
      ∧ out.removed = (init ++ [lastPage]).flatMap Page.removed
      ∧ out.cursor = some lastPage.next_cursor := by
  have hf : fetchTransactionUpdates (init.map Except.ok ++ [Except.ok lastPage]) store pid
      = .ok (fetchLoop item.transactions_cursor item.transactions_cursor [] [] [] []
          (init.map Except.ok ++ [Except.ok lastPage])) := by
    unfold fetchTransactionUpdates
    rw [hitem]
  obtain ⟨h1, h2, h3, h4⟩ := fetchLoop_ok_spec init lastPage item.transactions_cursor
    item.transactions_cursor [] [] [] [] hmore hlast
  refine ⟨_, hf, ?_, ?_, ?_, h1⟩
  · rw [h2]; simp
  · rw [h3]; simp
  · rw [h4]; simp

/-- Witness for C9 at the spec's end-to-end scenario: pages
added=[A,B] then added=[C] concatenate to [A,B,C] with cursor c2. -/
theorem c9_page_order_concatenation_witness :
    retrieveItemByPlaidItemId c9Store "it1" = some ⟨"it1", "tok1", none⟩
    ∧ (∃ out, fetchTransactionUpdates ([c9Page1].map Except.ok ++ [Except.ok c9Page2]) c9Store "it1"
        = .ok out
      ∧ out.added = ([c9Page1] ++ [c9Page2]).flatMap Page.added
      ∧ out.modified = ([c9Page1] ++ [c9Page2]).flatMap Page.modified
      ∧ out.removed = ([c9Page1] ++ [c9Page2]).flatMap Page.removed
      ∧ out.cursor = some c9Page2.next_cursor) :=
  ⟨by decide,
    c9_page_order_concatenation c9Store "it1" ⟨"it1", "tok1", none⟩ [c9Page1] c9Page2
      (by decide) (by decide) (by decide)⟩

lemma find_update_cursor (pid : String) (c : Option String) :
    ∀ (items : List Item),
      (items.map (fun it => if it.plaid_item_id = pid
          then { it with transactions_cursor := c } else it)).find?
        (fun it => decide (it.plaid_item_id = pid))
      = (items.find? (fun it => decide (it.plaid_item_id = pid))).map
          (fun it => { it with transactions_cursor := c }) := by
  intro items
  induction items with
  | nil => simp
  | cons it rest ih =>
    by_cases h : it.plaid_item_id = pid
    · simp only [List.map_cons]
      rw [if_pos h, List.find?_cons_of_pos _ (by simp [h]),
        List.find?_cons_of_pos _ (by simp [h])]
      simp
    · simp only [List.map_cons]
      rw [if_neg h, List.find?_cons_of_neg _ (by simp [h]),
        List.find?_cons_of_neg _ (by simp [h])]
      exact ih

lemma retrieve_update_cursor (st : Store) (pid : String) (c : Option String) :
    retrieveItemByPlaidItemId (updateItemTransactionsCursor st pid c) pid
      = (retrieveItemByPlaidItemId st pid).map
          (fun it => { it with transactions_cursor := c }) := by
  unfold retrieveItemByPlaidItemId updateItemTransactionsCursor
  exact find_update_cursor pid c st.items

/-- C1: when some page request of the fetch fails,
`fetchTransactionUpdates` returns the item's original last-known cursor
(not an intermediate `next_cursor`) together with the records accumulated
from the earlier successful pages, and after the whole cycle the cursor
persisted in the store still equals the cursor from before the cycle. -/
theorem c1_failed_fetch_returns_original_cursor
    (script : List PageResp) (store : Store) (pid : String) (item : Item)
    (pref : List Page) (rest : List PageResp)
    (provAccounts : List (String × Nat)) (writeOk : Tx → Bool)
    (hitem : retrieveItemByPlaidItemId store pid = some item)
    (hscript : script = pref.map Except.ok ++ Except.error () :: rest)
    (hmore : ∀ p ∈ pref, p.has_more = true) :
    (∃ out, fetchTransactionUpdates script store pid = .ok out
      ∧ out.cursor = item.transactions_cursor
      ∧ out.added = pref.flatMap Page.added
      ∧ out.modified = pref.flatMap Page.modified
      ∧ out.removed = pref.flatMap Page.removed)
    ∧ (retrieveItemByPlaidItemId
          (updateTransactions script provAccounts writeOk store pid).1 pid).map
        Item.transactions_cursor = some item.transactions_cursor := by
  subst hscript
  have hf : fetchTransactionUpdates (pref.map Except.ok ++ Except.error () :: rest) store pid
      = .ok (fetchLoop item.transactions_cursor item.transactions_cursor [] [] [] []
          (pref.map Except.ok ++ Except.error () :: rest)) := by
    unfold fetchTransactionUpdates
    rw [hitem]
  obtain ⟨h1, h2, h3, h4⟩ := fetchLoop_error_spec pref rest item.transactions_cursor
    item.transactions_cursor [] [] [] [] hmore
  have hitem' : store.items.find? (fun it => decide (it.plaid_item_id = pid)) = some item :=
    hitem
  constructor
  · exact ⟨_, hf, h1, by rw [h2]; simp, by rw [h3]; simp, by rw [h4]; simp⟩
  · set F := fetchLoop item.transactions_cursor item.transactions_cursor [] [] [] []
      (pref.map Except.ok ++ Except.error () :: rest) with hFdef
    unfold updateTransactions
    rw [hf]
    dsimp only
    cases hrun : (DupAware.createOrUpdateTransactions writeOk
        (createAccounts store.db provAccounts) (F.added ++ F.modified)).2 with
    | error e =>
      simp [retrieveItemByPlaidItemId, hitem']
    | ok u =>
      rw [retrieve_update_cursor]
      simp [retrieveItemByPlaidItemId, hitem', h1]

/-- Witness for C1: page 1 succeeds with next_cursor c1, page 2 throws;
the fetch returns cursor c0 with the page-1 records, and the store still
holds c0 after the cycle. -/
theorem c1_failed_fetch_returns_original_cursor_witness :
    retrieveItemByPlaidItemId c1Store "it1" = some ⟨"it1", "tok1", some "c0"⟩
    ∧ ((∃ out, fetchTransactionUpdates [Except.ok c1Page, Except.error ()] c1Store "it1"
          = .ok out
        ∧ out.cursor = some "c0"
        ∧ out.added = [c1Page].flatMap Page.added
        ∧ out.modified = [c1Page].flatMap Page.modified
        ∧ out.removed = [c1Page].flatMap Page.removed)
      ∧ (retrieveItemByPlaidItemId
            (updateTransactions [Except.ok c1Page, Except.error ()] [] (fun _ => true)
              c1Store "it1").1 "it1").map Item.transactions_cursor = some (some "c0")) :=
  ⟨by decide,
    c1_failed_fetch_returns_original_cursor [Except.ok c1Page, Except.error ()] c1Store
      "it1" ⟨"it1", "tok1", some "c0"⟩ [c1Page] [] [] (fun _ => true)
      (by decide) rfl (by decide)⟩

/-- C8 amended: the first request of a first-ever sync passes the
no-cursor sentinel (null); every subsequent request passes the previous
page's `next_cursor` verbatim unless that cursor is the empty string,
which `cursor || null` coerces to the sentinel.  The request trace is
exactly `requestCursorsSpec`, and `sentCursor` is the identity on every
non-empty cursor and on the missing cursor. -/
theorem c8_request_cursor_protocol (script : List PageResp) (store : Store)
    (pid : String) (item : Item)
    (hitem : retrieveItemByPlaidItemId store pid = some item) :
    (∃ out, fetchTransactionUpdates script store pid = .ok out
      ∧ out.requests = requestCursorsSpec item.transactions_cursor script)
    ∧ sentCursor none = none
    ∧ (∀ s : String, s ≠ "" → sentCursor (some s) = some s) := by
  constructor
  · refine ⟨fetchLoop item.transactions_cursor item.transactions_cursor [] [] [] [] script,
      ?_, ?_⟩
    · unfold fetchTransactionUpdates
      rw [hitem]
    · rw [fetchLoop_requests]
      simp
  · refine ⟨rfl, ?_⟩
    intro s hs
    simp [sentCursor, hs]

/-- C8 counterexample: after a page whose `next_cursor` is the empty
string, the next request carries the null sentinel, not the empty string
verbatim — `cursor || null` conflates the empty-string cursor with "no
cursor", so the claim as stated fails on this input. -/
theorem c8_counterexample_empty_cursor_coerced :
    (∃ out, fetchTransactionUpdates c8Script c8Store "it1" = .ok out
      ∧ out.requests = [none, none])
    ∧ sentCursor (some "") = none
    ∧ (some "" : Option String) ≠ none :=
  ⟨⟨fetchLoop none none [] [] [] [] c8Script, rfl, by decide⟩, by decide, by decide⟩

/-- Witness for the amended C8 on a concrete two-page script with a
non-empty intermediate cursor. -/
theorem c8_request_cursor_protocol_witness :
    retrieveItemByPlaidItemId c8Store "it1" = some ⟨"it1", "tok1", none⟩
    ∧ ((∃ out, fetchTransactionUpdates
          [Except.ok ⟨[], [], [], true, "c1"⟩, Except.ok ⟨[], [], [], false, "c2"⟩]
          c8Store "it1" = .ok out
        ∧ out.requests = requestCursorsSpec none
            [Except.ok ⟨[], [], [], true, "c1"⟩, Except.ok ⟨[], [], [], false, "c2"⟩])
      ∧ sentCursor none = none
      ∧ (∀ s : String, s ≠ "" → sentCursor (some s) = some s)) :=
  ⟨by decide,
    c8_request_cursor_protocol
      [Except.ok ⟨[], [], [], true, "c1"⟩, Except.ok ⟨[], [], [], false, "c2"⟩]
      c8Store "it1" ⟨"it1", "tok1", none⟩ (by decide)⟩

/-- C4 evaluated at the failing input: the cycle's steps run in order with
the cursor written last, yet although the one record's storage write
failed (its row is absent), the cycle still persists the new cursor c1 in
place of c0 — the code does not withhold the cursor when a record
mutation fails, because the per-record catch swallows the error. -/
theorem c4_cursor_persisted_despite_failed_write :
    (updateTransactions c4Script [] c4WriteOk c4Store "it1").2.1
      = [Event.createAccountsEvt, Event.reconcileEvt, Event.deleteEvt, Event.setCursorEvt]
    ∧ (retrieveItemByPlaidItemId c4Store "it1").map Item.transactions_cursor
      = some (some "c0")
    ∧ (retrieveItemByPlaidItemId
          (updateTransactions c4Script [] c4WriteOk c4Store "it1").1 "it1").map
        Item.transactions_cursor = some (some "c1")
    ∧ (updateTransactions c4Script [] c4WriteOk c4Store "it1").1.db.rows = []
    ∧ c4WriteOk c4Tx = false := by
  decide

/-- C5 counterexample: item A's cycle rejects, and item B — although in
the processed list — is never attempted, contradicting the claim that a
failure on one entity does not abort the processing of the others. -/
theorem c5_counterexample_second_item_not_attempted :
    (runAllItems c5Script [] (fun _ => true) c5Store ["A", "B"]).2 = ["A"]
    ∧ "B" ∉ (runAllItems c5Script [] (fun _ => true) c5Store ["A", "B"]).2 := by
  decide

/-- C5 amended: the driver attempts the items in order only until the
first failure; a rejected `updateTransactions` is caught by the batch
try/catch outside the loop, so none of the remaining items is
attempted. -/
theorem c5_failure_aborts_remaining_items (script : String → List PageResp)
    (provAccounts : List (String × Nat)) (writeOk : Tx → Bool) (store : Store)
    (pid : String) (rest : List String)
    (hfail : (updateTransactions (script pid) provAccounts writeOk store pid).2.2
      = .error ()) :
    (runAllItems script provAccounts writeOk store (pid :: rest)).2 = [pid] := by
  simp only [runAllItems]
  rw [hfail]

/-- Witness for the amended C5 at the concrete two-item run. -/
theorem c5_failure_aborts_remaining_items_witness :
    (updateTransactions (c5Script "A") [] (fun _ => true) c5Store "A").2.2 = .error ()
    ∧ (runAllItems c5Script [] (fun _ => true) c5Store ["A", "B"]).2 = ["A"] :=
  ⟨rfl, c5_failure_aborts_remaining_items c5Script [] (fun _ => true) c5Store "A" ["B"] rfl⟩

lemma upsertOne_unresolved (writeOk : Tx → Bool) (db : Db) (r : Tx)
    (h : retrieveAccountByPlaidAccountId db.accounts r.account_id = none) :
    UpsertFallback.upsertOne writeOk db r = (db, Outcome.unresolvedAccount) := by
  unfold UpsertFallback.upsertOne
  rw [h]

lemma upsertOne_writefail (writeOk : Tx → Bool) (db : Db) (r : Tx) (a : Nat)
    (h : retrieveAccountByPlaidAccountId db.accounts r.account_id = some a)
    (hw : writeOk r = false) :
    UpsertFallback.upsertOne writeOk db r = (db, Outcome.writeError) := by
  unfold UpsertFallback.upsertOne
  rw [h]
  simp [hw]

lemma upsertOne_overwrite (writeOk : Tx → Bool) (db : Db) (r : Tx) (a : Nat)
    (h : retrieveAccountByPlaidAccountId db.accounts r.account_id = some a)
    (hw : writeOk r = true) (hhas : hasTid db r.transaction_id = true) :
    UpsertFallback.upsertOne writeOk db r =
      ({ db with rows := db.rows.map (fun row =>
          if row.plaid_transaction_id = r.transaction_id then conflictSet a r row
          else row) }, Outcome.upserted) := by
  unfold UpsertFallback.upsertOne
  rw [h]
  rw [hasTid] at hhas
  simp [hw, hhas]

lemma upsertOne_insert (writeOk : Tx → Bool) (db : Db) (r : Tx) (a : Nat)
    (h : retrieveAccountByPlaidAccountId db.accounts r.account_id = some a)
    (hw : writeOk r = true) (hhas : hasTid db r.transaction_id = false) :
    UpsertFallback.upsertOne writeOk db r =
      ({ db with
          rows := db.rows ++ [newRow db.nextId a r false]
          nextId := db.nextId + 1 }, Outcome.upserted) := by
  unfold UpsertFallback.upsertOne
  rw [h]
  rw [hasTid] at hhas
  simp [hw, hhas]

lemma upsertDb_accounts (writeOk : Tx → Bool) (db : Db) (r : Tx) :
    (upsertDb writeOk db r).accounts = db.accounts := by
  unfold upsertDb UpsertFallback.upsertOne
  split
  · rfl
  · split
    · split
      · rfl
      · rfl
    · rfl

lemma applyAll_accounts (writeOk : Tx → Bool) :
    ∀ (rs : List Tx) (db : Db), (applyAll writeOk db rs).accounts = db.accounts := by
  intro rs
  induction rs with
  | nil => intro db; rfl
  | cons r t ih =>
    intro db
    show (applyAll writeOk (upsertDb writeOk db r) t).accounts = db.accounts
    rw [ih (upsertDb writeOk db r), upsertDb_accounts]

lemma conflictSet_tid (a : Nat) (r : Tx) (row : Row) :
    (conflictSet a r row).plaid_transaction_id = row.plaid_transaction_id := rfl

lemma conflictSet_id (a : Nat) (r : Tx) (row : Row) :
    (conflictSet a r row).id = row.id := rfl

lemma conflictSet_idem (a : Nat) (r : Tx) (row : Row) :
    conflictSet a r (conflictSet a r row) = conflictSet a r row := rfl

lemma conflictSet_congr (a : Nat) (r : Tx) (x y : Row) (hid : x.id = y.id)
    (htid : x.plaid_transaction_id = y.plaid_transaction_id) :
    conflictSet a r x = conflictSet a r y := by
  cases x
  cases y
  simp only [conflictSet]
  simp_all

lemma conflictSet_newRow (a : Nat) (r : Tx) (n : Nat) :
    conflictSet a r (newRow n a r false) = newRow n a r false := rfl

lemma hasTid_mono (writeOk : Tx → Bool) (db : Db) (r : Tx) (p : String)
    (h : hasTid db p = true) : hasTid (upsertDb writeOk db r) p = true := by
  unfold upsertDb UpsertFallback.upsertOne
  split
  · exact h
  · split
    · split
      · rw [hasTid] at h ⊢
        simp only [List.any_map, List.any_eq_true] at h ⊢
        obtain ⟨row, hmem, hrow⟩ := h
        refine ⟨row, hmem, ?_⟩
        simp only [Function.comp]
        split
        · simpa [conflictSet_tid] using hrow
        · exact hrow
      · rw [hasTid] at h ⊢
        simp only [List.any_append, h, Bool.true_or]
    · exact h

lemma hasTid_after_self (writeOk : Tx → Bool) (db : Db) (r : Tx) (a : Nat)
    (h : retrieveAccountByPlaidAccountId db.accounts r.account_id = some a)
    (hw : writeOk r = true) :
    hasTid (upsertDb writeOk db r) r.transaction_id = true := by
  cases hhas : hasTid db r.transaction_id with
  | true =>
    unfold upsertDb
    rw [upsertOne_overwrite writeOk db r a h hw hhas]
    rw [hasTid] at hhas ⊢
    simp only [List.any_map, List.any_eq_true] at hhas ⊢
    obtain ⟨row, hmem, hrow⟩ := hhas
    refine ⟨row, hmem, ?_⟩
    simp only [Function.comp]
    split
    · simpa [conflictSet_tid] using hrow
    · exact hrow
  | false =>
    unfold upsertDb
    rw [upsertOne_insert writeOk db r a h hw hhas]
    rw [hasTid]
    simp [newRow]

lemma applyAll_hasTid_mono (writeOk : Tx → Bool) (p : String) :
    ∀ (rs : List Tx) (db : Db), hasTid db p = true →
      hasTid (applyAll writeOk db rs) p = true := by
  intro rs
  induction rs with
  | nil => intro db h; exact h
  | cons r t ih =>
    intro db h
    exact ih (upsertDb writeOk db r) (hasTid_mono writeOk db r p h)

lemma map_id_of_mem {α : Type} (l : List α) (f : α → α) (h : ∀ x ∈ l, f x = x) :
    l.map f = l := by
  induction l with
  | nil => rfl
  | cons x xs ih =>
    rw [List.map_cons, h x (List.mem_cons_self x xs),
      ih (fun y hy => h y (List.mem_cons_of_mem _ hy))]

lemma settled_after (writeOk : Tx → Bool) (db : Db) (r : Tx) (a : Nat)
    (h : retrieveAccountByPlaidAccountId db.accounts r.account_id = some a)
    (hw : writeOk r = true) :
    settled a r (upsertDb writeOk db r) := by
  cases hhas : hasTid db r.transaction_id with
  | true =>
    unfold upsertDb
    rw [upsertOne_overwrite writeOk db r a h hw hhas]
    intro row' hmem htid
    simp only [List.mem_map] at hmem
    obtain ⟨row, hrowmem, hrow⟩ := hmem
    by_cases hc : row.plaid_transaction_id = r.transaction_id
    · rw [if_pos hc] at hrow
      rw [← hrow, conflictSet_idem]
    · rw [if_neg hc] at hrow
      rw [← hrow] at htid
      exact absurd htid hc
  | false =>
    unfold upsertDb
    rw [upsertOne_insert writeOk db r a h hw hhas]
    intro row' hmem htid
    simp only [List.mem_append, List.mem_singleton] at hmem
    rcases hmem with hold | hnew
    · exfalso
      rw [hasTid] at hhas
      have := List.any_eq_false.1 hhas row' hold
      simp [htid] at this
    · rw [hnew]
      exact conflictSet_newRow a r db.nextId

lemma settled_step (writeOk : Tx → Bool) (db : Db) (r r' : Tx) (a : Nat)
    (hset : settled a r db)
    (hnt : ¬ touches writeOk db.accounts r.transaction_id r') :
    settled a r (upsertDb writeOk db r') := by
  cases hres : retrieveAccountByPlaidAccountId db.accounts r'.account_id with
  | none =>
    unfold upsertDb
    rw [upsertOne_unresolved writeOk db r' hres]
    exact hset
  | some a' =>
    cases hw : writeOk r' with
    | false =>
      unfold upsertDb
      rw [upsertOne_writefail writeOk db r' a' hres hw]
      exact hset
    | true =>
      have htid : r'.transaction_id ≠ r.transaction_id := by
        intro hc
        exact hnt ⟨by rw [hres]; rfl, hw, hc⟩
      cases hhas : hasTid db r'.transaction_id with
      | true =>
        unfold upsertDb
        rw [upsertOne_overwrite writeOk db r' a' hres hw hhas]
        intro row' hmem htid'
        simp only [List.mem_map] at hmem
        obtain ⟨row, hrowmem, hrow⟩ := hmem
        by_cases hc : row.plaid_transaction_id = r'.transaction_id
        · rw [if_pos hc] at hrow
          rw [← hrow, conflictSet_tid] at htid'
          exact absurd (hc.symm.trans htid') htid
        · rw [if_neg hc] at hrow
          rw [← hrow] at htid' ⊢
          exact hset row hrowmem htid'
      | false =>
        unfold upsertDb
        rw [upsertOne_insert writeOk db r' a' hres hw hhas]
        intro row' hmem htid'
        simp only [List.mem_append, List.mem_singleton] at hmem
        rcases hmem with hold | hnew
        · exact hset row' hold htid'
        · rw [hnew] at htid'
          simp only [newRow] at htid'
          exact absurd htid' htid

lemma settled_applyAll (writeOk : Tx → Bool) (r : Tx) (a : Nat) :
    ∀ (rs : List Tx) (db : Db), settled a r db →
      (∀ r' ∈ rs, ¬ touches writeOk db.accounts r.transaction_id r') →
      settled a r (applyAll writeOk db rs) := by
  intro rs
  induction rs with
  | nil => intro db hset _; exact hset
  | cons r' t ih =>
    intro db hset hnone
    show settled a r (applyAll writeOk (upsertDb writeOk db r') t)
    refine ih (upsertDb writeOk db r')
      (settled_step writeOk db r r' a hset (hnone r' (List.mem_cons_self _ _))) ?_
    intro q hq
    rw [upsertDb_accounts]
    exact hnone q (List.mem_cons_of_mem _ hq)

lemma upsertDb_settled_id (writeOk : Tx → Bool) (db : Db) (r : Tx) (a : Nat)
    (h : retrieveAccountByPlaidAccountId db.accounts r.account_id = some a)
    (hw : writeOk r = true) (hhas : hasTid db r.transaction_id = true)
    (hset : settled a r db) :
    upsertDb writeOk db r = db := by
  unfold upsertDb
  rw [upsertOne_overwrite writeOk db r a h hw hhas]
  show ({ db with rows := db.rows.map _ } : Db) = db
  have : db.rows.map (fun row =>
      if row.plaid_transaction_id = r.transaction_id then conflictSet a r row
      else row) = db.rows := by
    apply map_id_of_mem
    intro row hmem
    by_cases hc : row.plaid_transaction_id = r.transaction_id
    · rw [if_pos hc]
      exact hset row hmem hc
    · rw [if_neg hc]
  rw [this]

lemma rowShape_tid {p : String} {x y : Row} (h : rowShape p x y) :
    x.plaid_transaction_id = y.plaid_transaction_id := by
  rcases h with rfl | ⟨h1, h2, _⟩
  · rfl
  · rw [h1, h2]

lemma forall₂_any_tid {p : String} :
    ∀ {l1 l2 : List Row}, List.Forall₂ (rowShape p) l1 l2 → ∀ q : String,
      l1.any (fun row => decide (row.plaid_transaction_id = q))
        = l2.any (fun row => decide (row.plaid_transaction_id = q)) := by
  intro l1 l2 h
  induction h with
  | nil => intro q; rfl
  | cons hxy htail ih =>
    intro q
    simp only [List.any_cons]
    rw [rowShape_tid hxy, ih q]

lemma forall₂_eq_of_no_tid {p : String} :
    ∀ {l1 l2 : List Row}, List.Forall₂ (rowShape p) l1 l2 →
      l1.any (fun row => decide (row.plaid_transaction_id = p)) = false →
      l1 = l2 := by
  intro l1 l2 h
  induction h with
  | nil => intro _; rfl
  | cons hxy htail ih =>
    intro hany
    simp only [List.any_cons, Bool.or_eq_false_iff] at hany
    obtain ⟨hx, hrest⟩ := hany
    rcases hxy with rfl | ⟨h1, _, _⟩
    · rw [ih hrest]
    · exfalso
      rw [h1] at hx
      simp at hx

lemma forall₂_overwrite {p : String} (a' : Nat) (r' : Tx) :
    ∀ {l1 l2 : List Row}, List.Forall₂ (rowShape p) l1 l2 →
      List.Forall₂ (rowShape p)
        (l1.map (fun row => if row.plaid_transaction_id = r'.transaction_id
            then conflictSet a' r' row else row))
        (l2.map (fun row => if row.plaid_transaction_id = r'.transaction_id
            then conflictSet a' r' row else row)) := by
  intro l1 l2 h
  induction h with
  | nil => exact List.Forall₂.nil
  | cons hxy htail ih =>
    simp only [List.map_cons]
    refine List.Forall₂.cons ?_ ih
    rcases hxy with rfl | ⟨h1, h2, h3⟩
    · exact Or.inl rfl
    · by_cases hc : p = r'.transaction_id
      · rw [if_pos (by rw [h1, hc]), if_pos (by rw [h2, hc])]
        exact Or.inl (conflictSet_congr a' r' _ _ h3 (by rw [h1, h2]))
      · rw [if_neg (by rw [h1]; exact fun hq => hc hq),
          if_neg (by rw [h2]; exact fun hq => hc hq)]
        exact Or.inr ⟨h1, h2, h3⟩

lemma forall₂_overwrite_eq {p : String} (a' : Nat) (r' : Tx)
    (htid : r'.transaction_id = p) :
    ∀ {l1 l2 : List Row}, List.Forall₂ (rowShape p) l1 l2 →
      l1.map (fun row => if row.plaid_transaction_id = r'.transaction_id
          then conflictSet a' r' row else row)
        = l2.map (fun row => if row.plaid_transaction_id = r'.transaction_id
          then conflictSet a' r' row else row) := by
  intro l1 l2 h
  induction h with
  | nil => rfl
  | cons hxy htail ih =>
    simp only [List.map_cons]
    rw [ih]
    rcases hxy with rfl | ⟨h1, h2, h3⟩
    · rfl
    · rw [if_pos (by rw [h1, htid]), if_pos (by rw [h2, htid]),
        conflictSet_congr a' r' _ _ h3 (by rw [h1, h2])]

lemma eqExceptAt_step (writeOk : Tx → Bool) (p : String) (d1 d2 : Db) (r' : Tx)
    (h : eqExceptAt p d1 d2) :
    eqExceptAt p (upsertDb writeOk d1 r') (upsertDb writeOk d2 r') := by
  obtain ⟨hacc, hnid, hrows⟩ := h
  cases hres : retrieveAccountByPlaidAccountId d1.accounts r'.account_id with
  | none =>
    have hres2 : retrieveAccountByPlaidAccountId d2.accounts r'.account_id = none := by
      rw [← hacc]; exact hres
    unfold upsertDb
    rw [upsertOne_unresolved _ _ _ hres, upsertOne_unresolved _ _ _ hres2]
    exact ⟨hacc, hnid, hrows⟩
  | some a' =>
    have hres2 : retrieveAccountByPlaidAccountId d2.accounts r'.account_id = some a' := by
      rw [← hacc]; exact hres
    cases hw : writeOk r' with
    | false =>
      unfold upsertDb
      rw [upsertOne_writefail _ _ _ a' hres hw, upsertOne_writefail _ _ _ a' hres2 hw]
      exact ⟨hacc, hnid, hrows⟩
    | true =>
      have hhas12 : hasTid d1 r'.transaction_id = hasTid d2 r'.transaction_id := by
        rw [hasTid, hasTid]
        exact forall₂_any_tid hrows r'.transaction_id
      cases hhas : hasTid d1 r'.transaction_id with
      | true =>
        have hhas2 : hasTid d2 r'.transaction_id = true := by rw [← hhas12]; exact hhas
        unfold upsertDb
        rw [upsertOne_overwrite _ _ _ a' hres hw hhas,
          upsertOne_overwrite _ _ _ a' hres2 hw hhas2]
        exact ⟨hacc, hnid, forall₂_overwrite a' r' hrows⟩
      | false =>
        have hhas2 : hasTid d2 r'.transaction_id = false := by rw [← hhas12]; exact hhas
        unfold upsertDb
        rw [upsertOne_insert _ _ _ a' hres hw hhas,
          upsertOne_insert _ _ _ a' hres2 hw hhas2]
        refine ⟨hacc, by simp [hnid], ?_⟩
        refine List.rel_append hrows ?_
        refine List.Forall₂.cons (Or.inl ?_) List.Forall₂.nil
        rw [hnid]

lemma eqExceptAt_touch_eq (writeOk : Tx → Bool) (p : String) (d1 d2 : Db) (r' : Tx)
    (h : eqExceptAt p d1 d2) (ht : touches writeOk d1.accounts p r') :
    upsertDb writeOk d1 r' = upsertDb writeOk d2 r' := by
  obtain ⟨hacc, hnid, hrows⟩ := h
  obtain ⟨hsome, hw, htid⟩ := ht
  obtain ⟨a', hres⟩ := Option.isSome_iff_exists.1 hsome
  have hres2 : retrieveAccountByPlaidAccountId d2.accounts r'.account_id = some a' := by
    rw [← hacc]; exact hres
  have hhas12 : hasTid d1 r'.transaction_id = hasTid d2 r'.transaction_id := by
    rw [hasTid, hasTid]
    exact forall₂_any_tid hrows r'.transaction_id
  cases hhas : hasTid d1 r'.transaction_id with
  | true =>
    have hhas2 : hasTid d2 r'.transaction_id = true := by rw [← hhas12]; exact hhas
    unfold upsertDb
    rw [upsertOne_overwrite _ _ _ a' hres hw hhas,
      upsertOne_overwrite _ _ _ a' hres2 hw hhas2]
    show Db.mk d1.accounts _ d1.nextId = Db.mk d2.accounts _ d2.nextId
    rw [Db.mk.injEq]
    exact ⟨hacc, forall₂_overwrite_eq a' r' htid hrows, hnid⟩
  | false =>
    have hhas2 : hasTid d2 r'.transaction_id = false := by rw [← hhas12]; exact hhas
    have hroweq : d1.rows = d2.rows := by
      refine forall₂_eq_of_no_tid hrows ?_
      rw [hasTid, htid] at hhas
      exact hhas
    unfold upsertDb
    rw [upsertOne_insert _ _ _ a' hres hw hhas,
      upsertOne_insert _ _ _ a' hres2 hw hhas2]
    show Db.mk d1.accounts _ _ = Db.mk d2.accounts _ _
    rw [Db.mk.injEq]
    exact ⟨hacc, by rw [hroweq, hnid], by rw [hnid]⟩

lemma eqExceptAt_applyAll_eq (writeOk : Tx → Bool) (p : String) :
    ∀ (rs : List Tx) (d1 d2 : Db), eqExceptAt p d1 d2 →
      (∃ r' ∈ rs, touches writeOk d1.accounts p r') →
      applyAll writeOk d1 rs = applyAll writeOk d2 rs := by
  intro rs
  induction rs with
  | nil =>
    intro d1 d2 _ hex
    exact absurd hex (by simp)
  | cons rr t ih =>
    intro d1 d2 heq hex
    by_cases hT : touches writeOk d1.accounts p rr
    · have hstep := eqExceptAt_touch_eq writeOk p d1 d2 rr heq hT
      show applyAll writeOk (upsertDb writeOk d1 rr) t
        = applyAll writeOk (upsertDb writeOk d2 rr) t
      rw [hstep]
    · obtain ⟨r', hr'mem, hr't⟩ := hex
      have hr'tail : r' ∈ t := by
        rcases List.mem_cons.1 hr'mem with rfl | hmem
        · exact absurd hr't hT
        · exact hmem
      show applyAll writeOk (upsertDb writeOk d1 rr) t
        = applyAll writeOk (upsertDb writeOk d2 rr) t
      refine ih (upsertDb writeOk d1 rr) (upsertDb writeOk d2 rr)
        (eqExceptAt_step writeOk p d1 d2 rr heq) ⟨r', hr'tail, ?_⟩
      rw [upsertDb_accounts]
      exact hr't

lemma eqExceptAt_overwrite_self (a : Nat) (r : Tx) (d : Db) :
    eqExceptAt r.transaction_id
      ({ d with rows := d.rows.map (fun row =>
          if row.plaid_transaction_id = r.transaction_id then conflictSet a r row
          else row) }) d := by
  refine ⟨rfl, rfl, ?_⟩
  show List.Forall₂ _ (d.rows.map _) d.rows
  have : ∀ l : List Row, List.Forall₂ (rowShape r.transaction_id)
      (l.map (fun row => if row.plaid_transaction_id = r.transaction_id
        then conflictSet a r row else row)) l := by
    intro l
    induction l with
    | nil => exact List.Forall₂.nil
    | cons x xs ih =>
      simp only [List.map_cons]
      refine List.Forall₂.cons ?_ ih
      by_cases hc : x.plaid_transaction_id = r.transaction_id
      · rw [if_pos hc]
        exact Or.inr ⟨(conflictSet_tid a r x).trans hc, hc, conflictSet_id a r x⟩
      · rw [if_neg hc]
        exact Or.inl rfl
  exact this d.rows

lemma applyAll_idem (writeOk : Tx → Bool) :
    ∀ (rs : List Tx) (db : Db),
      applyAll writeOk (applyAll writeOk db rs) rs = applyAll writeOk db rs := by
  intro rs
  induction rs with
  | nil => intro db; rfl
  | cons r t ih =>
    intro db
    show applyAll writeOk (applyAll writeOk (upsertDb writeOk db r) t) (r :: t)
      = applyAll writeOk (upsertDb writeOk db r) t
    set d1 := upsertDb writeOk db r with hd1def
    set D := applyAll writeOk d1 t with hDdef
    have hIH : applyAll writeOk D t = D := by
      rw [hDdef]
      exact ih d1
    have hcons : applyAll writeOk D (r :: t)
        = applyAll writeOk (upsertDb writeOk D r) t := rfl
    rw [hcons]
    have hDacc : D.accounts = db.accounts := by
      rw [hDdef, applyAll_accounts, hd1def, upsertDb_accounts]
    cases hres : retrieveAccountByPlaidAccountId db.accounts r.account_id with
    | none =>
      have hid : upsertDb writeOk D r = D := by
        unfold upsertDb
        rw [upsertOne_unresolved _ _ _ (by rw [hDacc]; exact hres)]
      rw [hid, hIH]
    | some a =>
      cases hw : writeOk r with
      | false =>
        have hid : upsertDb writeOk D r = D := by
          unfold upsertDb
          rw [upsertOne_writefail _ _ _ a (by rw [hDacc]; exact hres) hw]
        rw [hid, hIH]
      | true =>
        have hresD : retrieveAccountByPlaidAccountId D.accounts r.account_id = some a := by
          rw [hDacc]
          exact hres
        have hhasD : hasTid D r.transaction_id = true := by
          rw [hDdef]
          exact applyAll_hasTid_mono writeOk r.transaction_id t d1
            (by rw [hd1def]; exact hasTid_after_self writeOk db r a hres hw)
        by_cases hT : ∃ r' ∈ t, touches writeOk db.accounts r.transaction_id r'
        · have hover : upsertDb writeOk D r
              = ({ D with rows := D.rows.map (fun row =>
                  if row.plaid_transaction_id = r.transaction_id then conflictSet a r row
                  else row) }) := by
            unfold upsertDb
            rw [upsertOne_overwrite _ _ _ a hresD hw hhasD]
          have heq : eqExceptAt r.transaction_id (upsertDb writeOk D r) D := by
            rw [hover]
            exact eqExceptAt_overwrite_self a r D
          obtain ⟨r', hr'mem, hr't⟩ := hT
          have haccU : (upsertDb writeOk D r).accounts = db.accounts := by
            rw [upsertDb_accounts, hDacc]
          have happ := eqExceptAt_applyAll_eq writeOk r.transaction_id t
            (upsertDb writeOk D r) D heq ⟨r', hr'mem, by rw [haccU]; exact hr't⟩
          rw [happ, hIH]
        · have hset1 : settled a r d1 := by
            rw [hd1def]
            exact settled_after writeOk db r a hres hw
          have hsetD : settled a r D := by
            rw [hDdef]
            refine settled_applyAll writeOk r a t d1 hset1 ?_
            intro q hq
            rw [hd1def, upsertDb_accounts]
            exact fun hc => hT ⟨q, hq, hc⟩
          have hid : upsertDb writeOk D r = D :=
            upsertDb_settled_id writeOk D r a hresD hw hhasD hsetD
          rw [hid, hIH]

lemma upsert_processBatch_fst (writeOk : Tx → Bool) :
    ∀ (rs : List Tx) (db : Db),
      (UpsertFallback.processBatch writeOk db rs).1 = applyAll writeOk db rs := by
  intro rs
  induction rs with
  | nil => intro db; rfl
  | cons r t ih =>
    intro db
    exact ih ((UpsertFallback.upsertOne writeOk db r).1)

/-- C7: the upsert-fallback engine is idempotent on the stored state —
replaying the same added/modified batch on the state it produced changes
nothing: no extra rows, no changed field values, because every record
upserts by provider transaction id with conflict semantics that overwrite
all mutable columns with the same values again. -/
theorem c7_upsert_fallback_idempotent (writeOk : Tx → Bool) (db : Db) (rs : List Tx) :
    (UpsertFallback.createOrUpdateTransactions writeOk
        (UpsertFallback.createOrUpdateTransactions writeOk db rs).1 rs).1
      = (UpsertFallback.createOrUpdateTransactions writeOk db rs).1 := by
  have h1 : ∀ d : Db, (UpsertFallback.createOrUpdateTransactions writeOk d rs).1
      = applyAll writeOk d rs := by
    intro d
    exact upsert_processBatch_fst writeOk rs d
  rw [h1 db, h1 (applyAll writeOk db rs)]
  exact applyAll_idem writeOk rs db
